import Mathlib

/-!
Verification development for the vscode-editor-dired directory-listing codec
and reconciliation engine.

Shallow embedding conventions:
* a JavaScript string is modelled as `List Char` (named `JStr`); column indices
  are positions in that list;
* the JS regex character class `\s` is modelled by the ASCII whitespace
  characters (space, tab, newline, carriage return, vertical tab, form feed);
  `\d` is `Char.isDigit`;
* JS `number` arithmetic inside the size formatter is modelled with exact
  integer/rational arithmetic (`Math.round x` is `⌊x + 1/2⌋`); this is exact
  for the values exercised here; IEEE special values (NaN, Infinity literals)
  are out of scope;
* fallible filesystem calls (`stat`, `readdir`, `rename`) are modelled as
  `Option`-returning / Bool-returning functions, and the filesystem operations
  a run performs are recorded in an explicit trace.
-/

namespace Dired

/-- A JavaScript string, as a list of UTF-16-ish characters. -/
abbrev JStr := List Char

/-- The JS regex class `\s`, restricted to ASCII whitespace. -/
def isWs (c : Char) : Bool :=
  c = ' ' || c = '\t' || c = '\n' || c = '\r' || c = '\x0b' || c = '\x0c'

/-- JS `String.prototype.trim` (ASCII whitespace model). -/
def jsTrim (l : JStr) : JStr :=
  ((l.dropWhile isWs).reverse.dropWhile isWs).reverse

/-- Lower-case an ASCII letter (model of `toLowerCase` on the characters we compare). -/
def charLower (c : Char) : Char :=
  if 'A' ≤ c ∧ c ≤ 'Z' then Char.ofNat (c.toNat + 32) else c

/-- Upper-case an ASCII letter (model of `toUpperCase` on the characters we compare). -/
def charUpper (c : Char) : Char :=
  if 'a' ≤ c ∧ c ≤ 'z' then Char.ofNat (c.toNat - 32) else c

/-- The decimal digit character for `d < 10`. -/
def digitChar (d : Nat) : Char := Char.ofNat (48 + d)

/-- Decimal rendering, structurally recursive on a fuel that bounds the digit
count (`n + 1` always suffices, so the fuel branch is never hit from
`natDigits`). -/
def natDigitsAux : Nat → Nat → JStr
  | 0, _ => []
  | fuel + 1, n =>
    if n < 10 then [digitChar n]
    else natDigitsAux fuel (n / 10) ++ [digitChar (n % 10)]

/-- Decimal rendering of a natural number (model of JS `String(n)` for integers). -/
def natDigits (n : Nat) : JStr := natDigitsAux (n + 1) n

/-- Decimal rendering of an integer (model of JS `String(n)`). -/
def intDigits (n : Int) : JStr :=
  if n < 0 then '-' :: natDigits (-n).toNat else natDigits n.toNat

/-- Numeric value of a run of decimal digit characters (model of `parseInt` on
an all-digit string). -/
def digitsToNat (l : JStr) : Nat :=
  l.foldl (fun acc c => acc * 10 + (c.toNat - 48)) 0

/-- Model of `FileItem.pad` / `FileItem.padStr` from the source: left-pad to `size`
with `p`.  The source's while-loop is equivalent to prepending
`size - length` copies of the (one-character) padding. -/
def padLeft (s : JStr) (size : Nat) (p : Char) : JStr :=
  List.replicate (size - s.length) p ++ s

/-- Round-half-up of the rational `a / b` (for `b ≠ 0`), as natural-number
arithmetic: `⌊a/b + 1/2⌋ = (2a + b) / (2b)`.  Models JS `Math.round` on the
nonnegative quotients appearing in `formatSize`. -/
def divRound (a b : Nat) : Nat := (2 * a + b) / (2 * b)

/-- The unit suffixes used by the size formatter. -/
def sizeUnits : List Char := ['K', 'M', 'G', 'T', 'P']

/-- The while-loop of `formatSize`, structurally recursive on a fuel (the
`d < 5` guard bounds it by five iterations, so fuel 5 is never exhausted). -/
def sizeDivsAux (bytes : Nat) : Nat → Nat → Nat
  | 0, d => d
  | fuel + 1, d =>
    if 1000 ^ (d + 1) ≤ bytes ∧ d < 5 then sizeDivsAux bytes fuel (d + 1) else d

/-- The number of divisions by 1000 performed by `formatSize`'s while-loop:
the loop continues while the current value `bytes / 1000^d` is at least 1000
and fewer than 5 divisions happened (the JS `unitIndex < units.length - 1`
test, with `unitIndex = d - 1`). -/
def sizeDivs (bytes : Nat) (d : Nat) : Nat := sizeDivsAux bytes 5 d

/-- Model of `FileItem.formatSize` from the source, on integer byte counts.
`bytes < 1000` renders as a plain integer; otherwise the value is repeatedly
divided by 1000 (here tracked exactly as the rational `bytes / 1000^k`),
rendered with one decimal when below 10 and not rounding to an integer,
and suffixed with the selected unit. -/
def formatSize (bytes : Int) : JStr :=
  if bytes < 1000 then intDigits bytes
  else
    let b : Nat := bytes.toNat
    let k := sizeDivs b 0
    let p := 1000 ^ k
    let rv := divRound b p         -- Math.round(value)
    let rv10 := divRound (10 * b) p  -- Math.round(value * 10)
    let unit := sizeUnits.getD (k - 1) 'K'
    if b < 10 * p ∧ rv10 ≠ 10 * rv then
      natDigits (rv10 / 10) ++ '.' :: natDigits (rv10 % 10) ++ [unit]
    else
      natDigits rv ++ [unit]

/-- JS `parseInt(s, 10)` on an (already trimmed) string: optional sign, then a
maximal run of leading decimal digits; no digits means NaN (`none`). -/
def jsParseInt (l : JStr) : Option Int :=
  let (sign, rest) : Int × JStr :=
    match l with
    | '-' :: r => (-1, r)
    | '+' :: r => (1, r)
    | r => (1, r)
  let ds := rest.takeWhile Char.isDigit
  if ds = [] then none else some (sign * (digitsToNat ds : Int))

/-- An exact decimal float `num / 10 ^ den10`, the value space of our
`parseFloat` model (exact rational arithmetic in place of IEEE doubles). -/
structure DecFloat where
  num : Int
  den10 : Nat
deriving DecidableEq, Repr

/-- The rational value of a `DecFloat` (used in specifications only). -/
def DecFloat.val (f : DecFloat) : ℚ := (f.num : ℚ) / (10 : ℚ) ^ f.den10

/-- JS `parseFloat` on an (already trimmed) string: optional sign, integer
digits, optional fraction, optional decimal exponent; at least one digit must
appear before or after the point.  Returns the exact decimal value
(`none` is NaN; the `Infinity` literal is out of scope). -/
def jsParseFloat (l : JStr) : Option DecFloat :=
  let (sign, r1) : Int × JStr :=
    match l with
    | '-' :: r => (-1, r)
    | '+' :: r => (1, r)
    | r => (1, r)
  let intPart := r1.takeWhile Char.isDigit
  let r2 := r1.dropWhile Char.isDigit
  let (fracPart, r3) : JStr × JStr :=
    match r2 with
    | '.' :: r => (r.takeWhile Char.isDigit, r.dropWhile Char.isDigit)
    | r => ([], r)
  if intPart = [] ∧ fracPart = [] then none
  else
    let m : Int := sign * (digitsToNat (intPart ++ fracPart) : Int)
    let f := fracPart.length
    let expVal : Option Int :=
      match r3 with
      | 'e' :: r => jsParseInt r
      | 'E' :: r => jsParseInt r
      | _ => none
    match expVal with
    | some e =>
      if 0 ≤ e then some { num := m * (10 : Int) ^ e.toNat, den10 := f }
      else some { num := m, den10 := f + (-e).toNat }
    | none => some { num := m, den10 := f }

/-- JS `Math.round`: round half toward positive infinity (specification side). -/
def roundJS (q : ℚ) : Int := ⌊q + 1/2⌋

/-- The quantity `⌊a / b + 1/2⌋` in integer arithmetic (`b > 0`); the executable form of
`Math.round` on the exact quotient `a / b`. -/
def roundHalfUp (a : Int) (b : Nat) : Int := (2 * a + b) / (2 * b : Int)

/-- The multiplier for a (upper-cased) unit suffix, or `none` when the
character is not a unit suffix (the source's `units[last]` lookup). -/
def unitMul (c : Char) : Option Nat :=
  if c = 'K' then some 1000
  else if c = 'M' then some 1000000
  else if c = 'G' then some 1000000000
  else if c = 'T' then some 1000000000000
  else if c = 'P' then some 1000000000000000
  else none

/-- Model of `FileItem.parseSizeString` from the source: after trimming, a recognised
K/M/G/T/P suffix (case-insensitive) multiplies the `parseFloat` of the prefix
by the decimal unit and rounds; otherwise `parseInt`; NaN yields 0. -/
def parseSizeString (s : JStr) : Int :=
  if s = [] then 0
  else
    let t := jsTrim s
    match t.getLast? with
    | none => 0
    | some last =>
      match unitMul (charUpper last) with
      | some mul =>
        match jsParseFloat (t.dropLast) with
        | none => 0
        | some q => roundHalfUp (q.num * mul) (10 ^ q.den10)
      | none =>
        match jsParseInt t with
        | none => 0
        | some n => n

/-! ## The FileItem data model and the encoder (`FileItem.line`) -/

/-- One directory entry, mirroring the `FileItem` class fields.  TS
`string | undefined` fields are `Option JStr`; `_month : string | number`
is a sum. -/
structure FileItem where
  dirname : JStr
  filename : JStr
  isDirectory : Bool
  isFile : Bool
  username : Option JStr
  groupname : Option JStr
  size : Int
  month : JStr ⊕ Nat
  day : Nat
  hour : Nat
  min : Nat
  modeStr : Option JStr
  selected : Bool
  startColumn : Option Nat
deriving DecidableEq, Repr

/-- The owner/group field as rendered by `line()`: `'-'` when the value is
absent or empty, so columns stay stable. -/
def ownerTok (o : Option JStr) : JStr :=
  match o with
  | none => ['-']
  | some s => if s = [] then ['-'] else s

/-- The month field of the rendered line: a 2-digit zero-padded number, or the
first 3 characters of the string padded with spaces. -/
def monthChars (m : JStr ⊕ Nat) : JStr :=
  match m with
  | Sum.inr n => padLeft (natDigits n) 2 '0'
  | Sum.inl s => (s ++ [' ', ' ', ' ']).take 3

/-- Rendering of the TS `${this._modeStr}` template fragment (JS renders the
literal word for an undefined value). -/
def modeRender (o : Option JStr) : JStr :=
  match o with
  | none => ['u', 'n', 'd', 'e', 'f', 'i', 'n', 'e', 'd']
  | some s => s

/-- The portion of `FileItem.line` after the mode token (separator space
included), shared by the encoder and the decoder proofs. -/
def FileItem.lineAfterMode (f : FileItem) : JStr :=
  ' ' :: ownerTok f.username ++ ' ' :: ownerTok f.groupname
  ++ ' ' :: padLeft (formatSize f.size) 8 ' '
  ++ ' ' :: monthChars f.month
  ++ ' ' :: padLeft (natDigits f.day) 2 '0'
  ++ ' ' :: padLeft (natDigits f.hour) 2 '0'
  ++ ':' :: padLeft (natDigits f.min) 2 '0'
  ++ [' ']

/-- The fixed-width prefix of the rendered line (everything before the
filename): marker, mode, owner, group, size, month, day, hour:minute and the
single separator spaces. -/
def FileItem.lineFront (f : FileItem) : JStr :=
  (if f.selected then '*' else ' ') :: ' ' :: modeRender f.modeStr ++ f.lineAfterMode

/-- Model of `FileItem.line` from the source: the fixed-width prefix followed by the
literal filename. -/
def FileItem.line (f : FileItem) : JStr :=
  f.lineFront ++ f.filename

/-- The start column the encoder records on the item as a side effect of
`line()` (`this._startColumn = prefix.length`). -/
def FileItem.lineStartCol (f : FileItem) : Nat :=
  f.lineFront.length

/-! ## The decoder (`FileItem.parseLine`)

The strict path is the anchored JS regex

  `^\s*(\*?)\s+([\-d][rwx\-]{9})\s+(\S+)\s+(\S+)\s+(\S+)\s+(\S+)\s+(\d+)\s+(\d+):(\d+)\s+(.+)$`

Because every `(\S+)`/`(\d+)` group is a maximal run followed by a mandatory
separator with a disjoint character class, backtracking leaves the group
boundaries forced; the only choice points are at the start (`\s*(\*?)\s+`,
resolved below exactly as the backtracking engine does) and at `\s+(.+)$`,
where the engine gives one whitespace character back to `(.+)` when nothing
follows the run.  The matcher below is that deterministic unfolding. -/

/-- Negation of `isWs`, the regex class `\S`. -/
def nonWs (c : Char) : Bool := !isWs c

/-- The character class `[rwx\-]`. -/
def permChar (c : Char) : Bool := c = 'r' || c = 'w' || c = 'x' || c = '-'

/-- Does a string match `[\-d][rwx\-]{9}` exactly? -/
def modePat (m : JStr) : Bool :=
  match m with
  | [] => false
  | c :: rest => (c = '-' || c = 'd') && rest.length = 9 && rest.all permChar

/-- The captured groups of the strict pattern. -/
structure SMatch where
  star : Bool
  mode : JStr
  owner : JStr
  group : JStr
  sizeTok : JStr
  monthTok : JStr
  dayTok : JStr
  hourTok : JStr
  minTok : JStr
  name : JStr
deriving DecidableEq, Repr

/-- Step `\s+(\S+)`: mandatory whitespace, then a maximal nonempty non-whitespace
run; returns the token and the rest of the line after it. -/
def wsTok (l : JStr) : Option (JStr × JStr) :=
  if (l.takeWhile isWs) = [] then none
  else
    let l1 := l.dropWhile isWs
    let t := l1.takeWhile nonWs
    if t = [] then none else some (t, l1.dropWhile nonWs)

/-- Step `\s+(\d+)`: mandatory whitespace, then a maximal nonempty digit run. -/
def wsDigits (l : JStr) : Option (JStr × JStr) :=
  if (l.takeWhile isWs) = [] then none
  else
    let l1 := l.dropWhile isWs
    let t := l1.takeWhile Char.isDigit
    if t = [] then none else some (t, l1.dropWhile Char.isDigit)

/-- Step `:(\d+)`: a literal colon then a maximal nonempty digit run. -/
def colonDigits (l : JStr) : Option (JStr × JStr) :=
  match l with
  | ':' :: r =>
    let t := r.takeWhile Char.isDigit
    if t = [] then none else some (t, r.dropWhile Char.isDigit)
  | _ => none

/-- Step `\s+(.+)$` under backtracking: mandatory whitespace (maximal run of
length `k`), then the rest of the line if it is nonempty and free of line
terminators; when nothing follows the whitespace run the engine gives the
run's last character back to `(.+)` (possible only when `k ≥ 2` and that
character is not itself a line terminator). -/
def tailName (l : JStr) : Option JStr :=
  let w := l.takeWhile isWs
  if w = [] then none
  else
    let r := l.dropWhile isWs
    if r = [] then
      if 2 ≤ w.length ∧ w.getLast? ≠ some '\n' ∧ w.getLast? ≠ some '\r' then
        match w.getLast? with
        | some c => some [c]
        | none => none
      else none
    else if r.any (fun c => c = '\n' || c = '\r') then none
    else some r

/-- Step `[\-d][rwx\-]{9}` at the head of `l`: the 10-character mode token and the
rest after it. -/
def mode10 (star : Bool) (l : JStr) : Option (Bool × JStr × JStr) :=
  let m := l.take 10
  if modePat m ∧ m.length = 10 then some (star, m, l.drop 10) else none

/-- Step `^\s*(\*?)\s+` followed by the mode class: skip maximal leading
whitespace; a `*` (if present) must be followed by at least one whitespace
character; without a `*` there must have been at least one leading whitespace
character.  (These are exactly the surviving branches of the backtracking
search.) -/
def headStep (l : JStr) : Option (Bool × JStr × JStr) :=
  let k := l.takeWhile isWs
  match l.dropWhile isWs with
  | [] => none
  | c :: r =>
    if c = '*' then
      if (r.takeWhile isWs) = [] then none
      else mode10 true (r.dropWhile isWs)
    else if k = [] then none
    else mode10 false (c :: r)

/-- The full strict pattern: `some` with all ten captured groups, or `none`
when the regex does not match the line. -/
def strictMatch (l : JStr) : Option SMatch :=
  (headStep l).bind fun (star, mode, r0) =>
  (wsTok r0).bind fun (owner, r1) =>
  (wsTok r1).bind fun (group, r2) =>
  (wsTok r2).bind fun (sizeTok, r3) =>
  (wsTok r3).bind fun (monthTok, r4) =>
  (wsDigits r4).bind fun (dayTok, r5) =>
  (wsDigits r5).bind fun (hourTok, r6) =>
  (colonDigits r6).bind fun (minTok, r7) =>
  (tailName r7).map fun name =>
  { star := star, mode := mode, owner := owner, group := group,
    sizeTok := sizeTok, monthTok := monthTok, dayTok := dayTok,
    hourTok := hourTok, minTok := minTok, name := name }

/-- The `normalize` closure inside `parseLine`: empty, `-`, `undefined` or
`null` (case-insensitively, after trimming) decode to absent. -/
def normalizeTok (s : JStr) : Option JStr :=
  if s = [] then none
  else
    let t := (jsTrim s).map charLower
    if t = ['u', 'n', 'd', 'e', 'f', 'i', 'n', 'e', 'd'] ∨ t = ['n', 'u', 'l', 'l'] ∨ t = ['-']
    then none else some s

/-- The greatest index of `c` in `l` (JS `String.prototype.lastIndexOf` for a
single character, `none` for `-1`). -/
def jsLastIndexOf (l : JStr) (c : Char) : Option Nat :=
  match l with
  | [] => none
  | a :: rest =>
    match jsLastIndexOf rest c with
    | some i => some (i + 1)
    | none => if a = c then some 0 else none

/-- The fallback filename of `parseLine`: after the last `:` (skipping plain
spaces, then trimming), or the last whitespace-delimited token of the trimmed
line when there is no colon.  (JS `split(/\s+/)` followed by taking the last
element equals taking the trailing non-whitespace run of the trimmed string,
the empty string included.) -/
def fallbackName (l : JStr) : JStr :=
  match jsLastIndexOf l ':' with
  | some ci => jsTrim ((l.drop (ci + 1)).dropWhile (fun c => c = ' '))
  | none => ((jsTrim l).reverse.takeWhile nonWs).reverse

/-- The row returned by the fallback path of `parseLine`: best-effort name,
zeroed metadata, file flags set, no start column. -/
def fallbackItem (dir l : JStr) : FileItem :=
  { dirname := dir, filename := fallbackName l,
    isDirectory := false, isFile := true,
    username := none, groupname := none, size := 0,
    month := Sum.inr 0, day := 0, hour := 0, min := 0,
    modeStr := some [], selected := false, startColumn := none }

/-- Model of `FileItem.parseLine` from the source.  On the strict path the start
column is `m[0].lastIndexOf(name)` with `exec.index = 0`; since the captured
name is a suffix of the (fully anchored) match, that is
`l.length - name.length`. -/
def parseLine (dir l : JStr) : FileItem :=
  match strictMatch l with
  | none => fallbackItem dir l
  | some g =>
    { dirname := dir, filename := g.name,
      isDirectory := g.mode.head? = some 'd',
      isFile := g.mode.head? = some '-',
      username := normalizeTok g.owner,
      groupname := normalizeTok g.group,
      size := parseSizeString g.sizeTok,
      month := Sum.inl g.monthTok,
      day := digitsToNat g.dayTok,
      hour := digitsToNat g.hourTok,
      min := digitsToNat g.minTok,
      modeStr := some g.mode,
      selected := g.star,
      startColumn := some (l.length - g.name.length) }

/-! ## Path joining (Node `path.join`, posix model)

`path.join(dir, name)` concatenates with `/` and normalizes: empty and `.`
segments are dropped and `..` pops the previous segment (absolute paths
cannot climb above the root).  Trailing-slash preservation is omitted; it is
irrelevant to the claims below. -/

/-- Fold step of segment normalization. -/
def normStep (abs : Bool) (acc : List JStr) (s : JStr) : List JStr :=
  if s = [] ∨ s = ['.'] then acc
  else if s = ['.', '.'] then
    match acc.getLast? with
    | some t => if t = ['.', '.'] then acc ++ [s] else acc.dropLast
    | none => if abs then acc else [s]
  else acc ++ [s]

/-- Node `path.join(dir, name)` (posix). -/
def pathJoin (dir name : JStr) : JStr :=
  let p := dir ++ '/' :: name
  let abs := p.head? = some '/'
  let segs := (p.splitOn '/').foldl (normStep abs) []
  let body := List.intercalate ['/'] segs
  if abs then '/' :: body else if body = [] then ['.'] else body

/-! ## The reconciler (`DiredProvider.writeFile`)

`writeFile` compares the freshly rendered listing (old lines) against the
saved text (new lines) row by row: line 0 (the header) is skipped, missing
lines count as empty, both-empty rows are skipped, each side is decoded with
`FileItem.parseLine`, and a rename is attempted when both names are nonempty
and differ.  Each rename runs in its own try/catch, so a failure never stops
the loop. -/

/-- The rename request derived from row `i` of the two renderings, if any:
the loop body of `writeFile` up to the rename call. -/
def rowRename (dir : JStr) (oldLines newLines : List JStr) (i : Nat) : Option (JStr × JStr) :=
  if i = 0 then none
  else
    let o := oldLines.getD i []
    let n := newLines.getD i []
    if o = [] ∧ n = [] then none
    else
      let oldName := (parseLine dir o).filename
      let newName := (parseLine dir n).filename
      if oldName ≠ [] ∧ newName ≠ [] ∧ oldName ≠ newName then
        some (pathJoin dir oldName, pathJoin dir newName)
      else none

/-- All rename requests derived by the `writeFile` loop, in line order. -/
def renameRequests (dir : JStr) (oldLines newLines : List JStr) : List (JStr × JStr) :=
  (List.range (max oldLines.length newLines.length)).filterMap (rowRename dir oldLines newLines)

/-- One executed rename attempt and its outcome. -/
structure RenAttempt where
  src : JStr
  dst : JStr
  ok : Bool
deriving DecidableEq, Repr

/-- The `writeFile` loop with the rename execution modelled: `ren` is the
(stateful, fallible) `fs.promises.rename`; every attempt is recorded and a
failed attempt (`ok = false`, the catch branch) does not stop the loop. -/
def writeFileRenames {σ : Type} (ren : σ → JStr → JStr → Bool × σ) (dir : JStr)
    (oldLines newLines : List JStr) (s0 : σ) : List RenAttempt × σ :=
  (List.range (max oldLines.length newLines.length)).foldl
    (fun acc i =>
      match rowRename dir oldLines newLines i with
      | none => acc
      | some (f, t) =>
        let r := ren acc.2 f t
        (acc.1 ++ [{ src := f, dst := t, ok := r.1 }], r.2))
    ([], s0)

/-! ## The listing snapshot builder and cache (`DiredProvider.createBuffer`)

The filesystem is modelled as pure `stat`/`readdir` functions (`none` models
a thrown error); the per-member metadata that `FileItem.create` derives from
`fs.Stats` (including the externally resolved user/group names, which are an
out-of-scope collaborator) is carried directly on the `Stats` record.  Every
filesystem call the code performs is recorded in a trace.  The `Map` used for
`_dirCache` is modelled as an insertion-ordered association list: `set` on an
existing key updates in place, `keys().next()` is the head. -/

/-- The result of one member `stat`, with the fields `FileItem.create` reads. -/
structure Stats where
  isDir : Bool
  isFileFlag : Bool
  size : Int
  mtimeMs : Int
  ctMonth : Nat
  ctDay : Nat
  ctHour : Nat
  ctMin : Nat
  modeString : JStr
  username : Option JStr
  groupname : Option JStr
deriving DecidableEq, Repr

/-- The filesystem, as pure snapshot functions (`none` = the call throws). -/
structure FS where
  stat : JStr → Option Stats
  readdir : JStr → Option (List JStr)

/-- A recorded filesystem operation. -/
inductive FsOp where
  | statOp (p : JStr)
  | readdirOp (p : JStr)
deriving DecidableEq, Repr

/-- The month names used by `FileItem.create` (`Date.getMonth()` is 0-11;
the default of `getD` is never reached for real dates). -/
def MONTHS : List JStr :=
  ["Jan".toList, "Feb".toList, "Mar".toList, "Apr".toList, "May".toList, "Jun".toList,
   "Jul".toList, "Aug".toList, "Sep".toList, "Oct".toList, "Nov".toList, "Dec".toList]

/-- The lightweight per-entry record stored in `_dirCache`. -/
structure Light where
  filename : JStr
  isDirectory : Bool
  isFile : Bool
  username : Option JStr
  groupname : Option JStr
  size : Int
  month : JStr ⊕ Nat
  day : Nat
  hour : Nat
  min : Nat
  modeStr : Option JStr
  selected : Bool
deriving DecidableEq, Repr

/-- The light entry built from one successful member stat
(`FileItem.create` followed by the field extraction in `createBuffer`). -/
def mkLight (filename : JStr) (st : Stats) : Light :=
  { filename := filename, isDirectory := st.isDir, isFile := st.isFileFlag,
    username := st.username, groupname := st.groupname, size := st.size,
    month := Sum.inl (MONTHS.getD st.ctMonth "Jan".toList),
    day := st.ctDay, hour := st.ctHour, min := st.ctMin,
    modeStr := some st.modeString, selected := false }

/-- Reconstructing a `FileItem` from a cached light entry (the
`new FileItem(dirname, e.filename, ...)` calls in `createBuffer`). -/
def Light.toItem (e : Light) (dir : JStr) : FileItem :=
  { dirname := dir, filename := e.filename, isDirectory := e.isDirectory,
    isFile := e.isFile, username := e.username, groupname := e.groupname,
    size := e.size, month := e.month, day := e.day, hour := e.hour,
    min := e.min, modeStr := e.modeStr, selected := e.selected,
    startColumn := none }

/-- One `_dirCache` entry: the light entries and the directory mtime at capture. -/
structure CacheEntry where
  entries : List Light
  dirMtime : Option Int
deriving DecidableEq, Repr

/-- The insertion-ordered cache map. -/
abbrev Cache := List (JStr × CacheEntry)

/-- Model of `Map.get`. -/
def mapGet : Cache → JStr → Option CacheEntry
  | [], _ => none
  | (k, v) :: rest, d => if k = d then some v else mapGet rest d

/-- Model of `Map.set`: update in place when the key exists (JS Maps keep the original
insertion position), append otherwise. -/
def mapSet : Cache → JStr → CacheEntry → Cache
  | [], k, v => [(k, v)]
  | (k', v') :: rest, k, v =>
    if k' = k then (k, v) :: rest else (k', v') :: mapSet rest k v

/-- The eviction loop, structurally recursive on a fuel (each pass drops one
entry, so the list length is enough fuel). -/
def evictAux : Nat → Cache → Cache
  | 0, l => l
  | fuel + 1, l => if 10 < l.length then evictAux fuel l.tail else l

/-- The eviction loop: `while (size > MAX_CACHE_DIRS) delete oldest` with the
hard-coded `MAX_CACHE_DIRS = 10`. -/
def evictLoop (l : Cache) : Cache := evictAux l.length l

/-- Configuration read by `createBuffer` (`dired.maxEntries`, the dotfile and
meta-file toggles). -/
structure Cfg where
  maxEntries : Nat
  showDotFiles : Bool
  showMetaFiles : Bool
deriving DecidableEq, Repr

/-- Result of a `createBuffer` run: the rendered lines, the updated cache and
the trace of filesystem calls performed. -/
structure CBOut where
  buffers : List JStr
  cache : Cache
  trace : List FsOp
deriving DecidableEq, Repr

/-- Model of `n.charAt(0) !== '.'` (the empty string passes). -/
def headNotDot (n : JStr) : Bool :=
  match n with
  | [] => true
  | c :: _ => c ≠ '.'

/-- Model of `n.toLowerCase().endsWith('.meta')`. -/
def isMetaName (n : JStr) : Bool :=
  List.isSuffixOf ".meta".toList (n.map charLower)

/-- The truncation notice line. -/
def truncMsg (maxE : Nat) : JStr :=
  "(listing truncated to ".toList ++ natDigits maxE ++ " entries)".toList

/-- The synthetic-entry prepend and the two visibility filters of
`createBuffer`. -/
def filteredNames (cfg : Cfg) (entries : List JStr) : List JStr :=
  let names0 := ['.'] :: ['.', '.'] :: entries
  let names1 :=
    if cfg.showDotFiles then names0
    else names0.filter (fun n => n = ['.'] || n = ['.', '.'] || headNotDot n)
  if cfg.showMetaFiles then names1
  else names1.filter (fun n => n = ['.'] || n = ['.', '.'] || !isMetaName n)

/-- The rebuild branch of `createBuffer`: filter and truncate the names, stat
every retained member (failures are skipped), store the light entries with
the directory mtime into the cache (evicting down to the bound) and render. -/
def buildFrom (cfg : Cfg) (fs : FS) (cache : Cache) (dirname : JStr)
    (entries : List JStr) (trace : List FsOp) : CBOut :=
  let names2 := filteredNames cfg entries
  let truncated := cfg.maxEntries < names2.length
  let names := names2.take cfg.maxEntries
  let memberTrace := names.map (fun nm => FsOp.statOp (pathJoin dirname nm))
  let lights := names.filterMap (fun nm => (fs.stat (pathJoin dirname nm)).map (mkLight nm))
  let dirMtime := (fs.stat dirname).map (fun d => d.mtimeMs)
  let cache1 := evictLoop (mapSet cache dirname { entries := lights, dirMtime := dirMtime })
  let lines := lights.map (fun e => (e.toItem dirname).line)
  { buffers := (dirname ++ [':']) :: lines ++ (if truncated then [truncMsg cfg.maxEntries] else []),
    cache := cache1,
    trace := trace ++ memberTrace ++ [FsOp.statOp dirname] }

/-- Model of `DiredProvider.createBuffer`: header; directory existence check; readdir;
cache fast-path validated against the directory mtime; otherwise rebuild. -/
def createBuffer (cfg : Cfg) (fs : FS) (cache : Cache) (dirname : JStr) : CBOut :=
  let header := dirname ++ [':']
  let t0 := [FsOp.statOp dirname]
  match fs.stat dirname with
  | none => { buffers := [header], cache := cache, trace := t0 }
  | some st =>
    if !st.isDir then { buffers := [header], cache := cache, trace := t0 }
    else
      match fs.readdir dirname with
      | none => { buffers := [header], cache := cache, trace := t0 ++ [FsOp.readdirOp dirname] }
      | some entries =>
        let t1 := t0 ++ [FsOp.readdirOp dirname]
        match mapGet cache dirname with
        | some ce =>
          if ce.entries ≠ [] then
            let t2 := t1 ++ [FsOp.statOp dirname]
            match fs.stat dirname with
            | some dst =>
              if ce.dirMtime = some dst.mtimeMs then
                { buffers := header :: ce.entries.map (fun e => (e.toItem dirname).line)
                    ++ (if cfg.maxEntries < ce.entries.length then [truncMsg cfg.maxEntries] else []),
                  cache := cache, trace := t2 }
              else buildFrom cfg fs cache dirname entries t2
            | none => buildFrom cfg fs cache dirname entries t2
          else buildFrom cfg fs cache dirname entries t1
        | none => buildFrom cfg fs cache dirname entries t1

/-! ## Remaining definitions used by the claims -/

/-- Well-formedness of a row for the round-trip property: the mode token
matches `[\-d][rwx\-]{9}`, owner/group (when present) contain no whitespace,
the rendered month field is a non-space run followed by spaces (always true
for numeric months and for the 3-letter month names), and the filename is
nonempty, does not start with whitespace and contains no line break. -/
def rowOk (r : FileItem) : Bool :=
  (match r.modeStr with | some m => modePat m | none => false)
  && (match r.username with | some s => s.all nonWs | none => true)
  && (match r.groupname with | some s => s.all nonWs | none => true)
  && !((monthChars r.month).takeWhile nonWs).isEmpty
  && ((monthChars r.month).dropWhile nonWs).all (fun c => c = ' ')
  && (match r.filename with | c :: _ => nonWs c | [] => false)
  && r.filename.all (fun c => !(c = '\n' || c = '\r'))

/-- Concrete row used by several witnesses: a plain well-formed file row. -/
def rowA : FileItem :=
  { dirname := "/d".toList, filename := "a.txt".toList, isDirectory := false, isFile := true,
    username := some "user".toList, groupname := some "grp".toList, size := 532,
    month := Sum.inl "Jan".toList, day := 5, hour := 7, min := 30,
    modeStr := some "-rw-r--r--".toList, selected := false, startColumn := none }

/-- Row `rowA` with a setuid bit in the mode token, as real filesystem modes
produce (`rws`): the strict pattern rejects it. -/
def rowBad : FileItem := { rowA with modeStr := some "-rwsr-xr-x".toList }

/-- The `b.txt` and `c.txt` variants of `rowA` for the reconciliation
scenario. -/
def rowB : FileItem := { rowA with filename := "b.txt".toList }

/-- See `rowB`. -/
def rowC : FileItem := { rowA with filename := "c.txt".toList }

/-- A row named `c`, and `rowDotC` named `./c`: distinct names whose joined
paths coincide after normalization. -/
def rowPlainC : FileItem := { rowA with filename := "c".toList }

/-- See `rowPlainC`. -/
def rowDotC : FileItem := { rowA with filename := "./c".toList }

/-- Directory stats used by the cache examples. -/
def statsDir : Stats :=
  { isDir := true, isFileFlag := false, size := 4096, mtimeMs := 5,
    ctMonth := 0, ctDay := 1, ctHour := 2, ctMin := 3, modeString := "drwxr-xr-x".toList,
    username := some "u".toList, groupname := some "g".toList }

/-- A concrete filesystem for the cache-hit examples: `/t` is a directory
with one entry `a`; the synthetic `.` resolves back to `/t` and `..` to `/`. -/
def fsT : FS :=
  { stat := fun p =>
      if p = "/t".toList then some statsDir
      else if p = "/".toList then some { statsDir with mtimeMs := 9 }
      else none,
    readdir := fun p => if p = "/t".toList then some ["a".toList] else none }

/-- Configuration capping the listing at two entries. -/
def cfgT : Cfg := { maxEntries := 2, showDotFiles := true, showMetaFiles := true }

/-- A cache entry for `/t` whose recorded mtime matches `statsDir.mtimeMs`. -/
def ceT : CacheEntry := { entries := [mkLight ['.'] statsDir], dirMtime := some 5 }

/-- A one-entry cache holding `ceT` under `/t`. -/
def cacheT : Cache := [("/t".toList, ceT)]

/-- Eleven distinct directories for the eviction example. -/
def dirs11 : List JStr :=
  ["/a0".toList, "/a1".toList, "/a2".toList, "/a3".toList, "/a4".toList, "/a5".toList,
   "/a6".toList, "/a7".toList, "/a8".toList, "/a9".toList, "/a10".toList]

/-- A filesystem where each of the eleven directories exists and is empty. -/
def fs11 : FS :=
  { stat := fun p => if p ∈ dirs11 then some statsDir else none,
    readdir := fun p => if p ∈ dirs11 then some [] else none }

/-- A configuration with `maxEntries = 0`, so the eviction example stats no
members. -/
def cfg11 : Cfg := { maxEntries := 0, showDotFiles := true, showMetaFiles := true }

/-! ## General little lemmas -/

theorem takeWhileAppAll {p : Char → Bool} {t : JStr} (r : JStr) (ht : t.all p = true) :
    (t ++ r).takeWhile p = t ++ r.takeWhile p := by
  induction t with
  | nil => rfl
  | cons c cs ih =>
    simp only [List.all_cons, Bool.and_eq_true] at ht
    simp [List.takeWhile, ht.1, ih ht.2]

theorem dropWhileAppAll {p : Char → Bool} {t : JStr} (r : JStr) (ht : t.all p = true) :
    (t ++ r).dropWhile p = r.dropWhile p := by
  induction t with
  | nil => rfl
  | cons c cs ih =>
    simp only [List.all_cons, Bool.and_eq_true] at ht
    simp [List.dropWhile, ht.1, ih ht.2]

/-- Predicate: the head of `r`, if any, falsifies `p`. -/
def headFails (p : Char → Bool) (r : JStr) : Prop :=
  ∀ c, r.head? = some c → p c = false

theorem takeWhileHeadFails {p : Char → Bool} {r : JStr} (hr : headFails p r) :
    r.takeWhile p = [] := by
  cases r with
  | nil => rfl
  | cons c cs => simp [List.takeWhile, hr c rfl]

theorem dropWhileHeadFails {p : Char → Bool} {r : JStr} (hr : headFails p r) :
    r.dropWhile p = r := by
  cases r with
  | nil => rfl
  | cons c cs => simp [List.dropWhile, hr c rfl]

theorem takeWhileSplit {p : Char → Bool} {t : JStr} (r : JStr) (ht : t.all p = true)
    (hr : headFails p r) : (t ++ r).takeWhile p = t ∧ (t ++ r).dropWhile p = r := by
  constructor
  · rw [takeWhileAppAll r ht, takeWhileHeadFails hr, List.append_nil]
  · rw [dropWhileAppAll r ht, dropWhileHeadFails hr]

theorem digitNotWs {c : Char} (h : c.isDigit = true) : isWs c = false := by
  by_contra hw
  simp only [Bool.not_eq_false] at hw
  simp only [isWs, Bool.or_eq_true, decide_eq_true_eq] at hw
  rcases hw with ((((rfl | rfl) | rfl) | rfl) | rfl) | rfl <;> simp [Char.isDigit] at h

theorem digitIsNonWs {c : Char} (h : c.isDigit = true) : nonWs c = true := by
  simp [nonWs, digitNotWs h]

theorem allDigitsNonWs {l : JStr} (h : l.all Char.isDigit = true) : l.all nonWs = true := by
  rw [List.all_eq_true] at h ⊢
  intro c hc
  exact digitIsNonWs (h c hc)

theorem digitCharIsDigit {d : Nat} (h : d < 10) : (digitChar d).isDigit = true := by
  interval_cases d <;> decide

theorem natDigitsAuxAllDigit : ∀ fuel n, (natDigitsAux fuel n).all Char.isDigit = true := by
  intro fuel
  induction fuel with
  | zero => intro n; rfl
  | succ f ih =>
    intro n
    by_cases h : n < 10
    · simp [natDigitsAux, if_pos h, digitCharIsDigit h]
    · simp [natDigitsAux, if_neg h, List.all_append, ih (n / 10),
        digitCharIsDigit (Nat.mod_lt _ (by norm_num))]

theorem natDigitsAllDigit (n : Nat) : (natDigits n).all Char.isDigit = true :=
  natDigitsAuxAllDigit (n + 1) n

theorem natDigitsNeNil (n : Nat) : natDigits n ≠ [] := by
  simp only [natDigits, natDigitsAux]
  split <;> simp

theorem padLeftAll {p : Char → Bool} {s : JStr} {n : Nat} {c : Char}
    (hs : s.all p = true) (hc : p c = true) : (padLeft s n c).all p = true := by
  simp only [padLeft, List.all_append, Bool.and_eq_true]
  refine ⟨?_, hs⟩
  rw [List.all_eq_true]
  intro x hx
  rw [List.eq_of_mem_replicate hx]
  exact hc

theorem padLeftNeNil {s : JStr} {n : Nat} {c : Char} (hs : s ≠ []) : padLeft s n c ≠ [] := by
  intro h
  exact hs (List.append_eq_nil.mp h).2

/-! ## Evaluation lemmas for the strict matcher on well-formed input -/

theorem wsHeadOfNonWs {t : JStr} (r : JStr) (ht1 : t ≠ []) (ht2 : t.all nonWs = true) :
    headFails isWs (t ++ r) := by
  intro c hc
  cases t with
  | nil => exact absurd rfl ht1
  | cons a as =>
    simp only [List.cons_append, List.head?_cons, Option.some.injEq] at hc
    subst hc
    simp only [List.all_cons, Bool.and_eq_true] at ht2
    simpa [nonWs] using ht2.1

theorem wsTokEval (l w t r : JStr) (hl : l = w ++ t ++ r)
    (hw1 : w ≠ []) (hw2 : w.all isWs = true)
    (ht1 : t ≠ []) (ht2 : t.all nonWs = true)
    (hr : headFails nonWs r) : wsTok l = some (t, r) := by
  subst hl
  have hsplit1 := takeWhileSplit (p := isWs) (t := w) (t ++ r) hw2 (wsHeadOfNonWs r ht1 ht2)
  have hsplit2 := takeWhileSplit (p := nonWs) (t := t) r ht2 hr
  rw [List.append_assoc] at *
  simp only [wsTok, hsplit1.1, hsplit1.2, hsplit2.1, hsplit2.2]
  simp [hw1, ht1]

theorem digitsHeadNonWs {t : JStr} (r : JStr) (ht1 : t ≠ []) (ht2 : t.all Char.isDigit = true) :
    headFails isWs (t ++ r) :=
  wsHeadOfNonWs r ht1 (allDigitsNonWs ht2)

theorem wsDigitsEval (l w t r : JStr) (hl : l = w ++ t ++ r)
    (hw1 : w ≠ []) (hw2 : w.all isWs = true)
    (ht1 : t ≠ []) (ht2 : t.all Char.isDigit = true)
    (hr : headFails Char.isDigit r) : wsDigits l = some (t, r) := by
  subst hl
  have hsplit1 := takeWhileSplit (p := isWs) (t := w) (t ++ r) hw2 (digitsHeadNonWs r ht1 ht2)
  have hsplit2 := takeWhileSplit (p := Char.isDigit) (t := t) r ht2 hr
  rw [List.append_assoc] at *
  simp only [wsDigits, hsplit1.1, hsplit1.2, hsplit2.1, hsplit2.2]
  simp [hw1, ht1]

theorem colonDigitsEval (t r : JStr) (ht1 : t ≠ []) (ht2 : t.all Char.isDigit = true)
    (hr : headFails Char.isDigit r) : colonDigits (':' :: t ++ r) = some (t, r) := by
  have hsplit := takeWhileSplit (p := Char.isDigit) (t := t) r ht2 hr
  simp only [colonDigits, List.cons_append, hsplit.1, hsplit.2]
  simp [ht1]

theorem tailNameEval (t : JStr) (ht1 : t ≠ [])
    (hh : headFails isWs t)
    (hlb : t.all (fun c => !(c = '\n' || c = '\r')) = true) :
    tailName (' ' :: t) = some t := by
  have h1 : (' ' :: t).takeWhile isWs = [' '] := by
    simpa [List.takeWhile, isWs] using takeWhileHeadFails hh
  have h2 : (' ' :: t).dropWhile isWs = t := by
    simpa [List.dropWhile, isWs] using dropWhileHeadFails hh
  have h3 : t.any (fun c => c = '\n' || c = '\r') = false := by
    rw [List.any_eq_false]
    intro c hc
    have := (List.all_eq_true.mp hlb) c hc
    simpa using this
  simp only [tailName, h1, h2]
  simp [ht1, h3]

theorem modePatLength {m : JStr} (h : modePat m = true) : m.length = 10 := by
  cases m with
  | nil => simp [modePat] at h
  | cons c cs =>
    simp only [modePat, Bool.and_eq_true, decide_eq_true_eq] at h
    simp [h.1.2]

theorem mode10Eval (star : Bool) (m rest : JStr) (hm : modePat m = true) :
    mode10 star (m ++ rest) = some (star, m, rest) := by
  have hlen := modePatLength hm
  have htake : (m ++ rest).take 10 = m := by
    rw [← hlen]; exact List.take_left m rest
  have hdrop : (m ++ rest).drop 10 = rest := by
    rw [← hlen]; exact List.drop_left m rest
  simp [mode10, htake, hdrop, hm, hlen]

theorem takeWhileConsTrue {p : Char → Bool} {a : Char} (l : JStr) (ha : p a = true) :
    (a :: l).takeWhile p = a :: l.takeWhile p := by
  simp [List.takeWhile, ha]

theorem dropWhileConsTrue {p : Char → Bool} {a : Char} (l : JStr) (ha : p a = true) :
    (a :: l).dropWhile p = l.dropWhile p := by
  simp [List.dropWhile, ha]

theorem headStepEval (sel : Bool) (c : Char) (cs rest : JStr) (hc : c = '-' ∨ c = 'd') :
    headStep ((if sel then '*' else ' ') :: ' ' :: c :: (cs ++ rest))
      = mode10 sel (c :: (cs ++ rest)) := by
  have hcw : isWs c = false := by rcases hc with rfl | rfl <;> decide
  have hcs : ¬(c = '*') := by rcases hc with rfl | rfl <;> simp
  have hf : headFails isWs (c :: (cs ++ rest)) := by
    intro d hd
    simp only [List.head?_cons, Option.some.injEq] at hd
    subst hd
    exact hcw
  have hmw := takeWhileHeadFails hf
  have hmd := dropWhileHeadFails hf
  cases sel with
  | true =>
    show headStep ('*' :: ' ' :: c :: (cs ++ rest)) = mode10 true (c :: (cs ++ rest))
    have hstar : headFails isWs ('*' :: ' ' :: c :: (cs ++ rest)) := by
      intro d hd
      simp only [List.head?_cons, Option.some.injEq] at hd
      subst hd
      decide
    have h2 := dropWhileHeadFails hstar
    have h3 : (' ' :: c :: (cs ++ rest)).takeWhile isWs = [' '] := by
      rw [takeWhileConsTrue _ (by decide), hmw]
    have h4 : (' ' :: c :: (cs ++ rest)).dropWhile isWs = c :: (cs ++ rest) := by
      rw [dropWhileConsTrue _ (by decide), hmd]
    simp only [headStep]
    rw [h2]
    simp only [h3, h4]
    simp
  | false =>
    show headStep (' ' :: ' ' :: c :: (cs ++ rest)) = mode10 false (c :: (cs ++ rest))
    have h1 : (' ' :: ' ' :: c :: (cs ++ rest)).takeWhile isWs = [' ', ' '] := by
      rw [takeWhileConsTrue _ (by decide), takeWhileConsTrue _ (by decide), hmw]
    have h2 : (' ' :: ' ' :: c :: (cs ++ rest)).dropWhile isWs = c :: (cs ++ rest) := by
      rw [dropWhileConsTrue _ (by decide), dropWhileConsTrue _ (by decide), hmd]
    simp only [headStep]
    rw [h2]
    simp only [h1]
    simp [hcs]

theorem takeWhileAllSelf (p : Char → Bool) (l : JStr) : (l.takeWhile p).all p = true := by
  induction l with
  | nil => rfl
  | cons c cs ih =>
    by_cases h : p c = true
    · rw [takeWhileConsTrue _ h]
      simp [h, ih]
    · simp only [List.takeWhile]
      rw [Bool.not_eq_true] at h
      rw [h]
      rfl

theorem allReplicate {p : Char → Bool} {c : Char} (n : Nat) (h : p c = true) :
    (List.replicate n c).all p = true := by
  rw [List.all_eq_true]
  intro x hx
  rw [List.eq_of_mem_replicate hx]
  exact h

theorem spacesAllWs {l : JStr} (h : l.all (fun c => c = ' ') = true) : l.all isWs = true := by
  rw [List.all_eq_true] at h ⊢
  intro c hc
  have := h c hc
  simp only [decide_eq_true_eq] at this
  subst this
  decide

theorem ownerTokFacts (o : Option JStr) (h : ∀ s, o = some s → s.all nonWs = true) :
    ownerTok o ≠ [] ∧ (ownerTok o).all nonWs = true := by
  cases o with
  | none => exact ⟨by simp [ownerTok], by decide⟩
  | some s =>
    by_cases hs : s = []
    · subst hs
      exact ⟨by simp [ownerTok], by simp [ownerTok]; decide⟩
    · refine ⟨by simp [ownerTok, hs], ?_⟩
      simp only [ownerTok, if_neg hs]
      exact h s rfl

theorem unitNonWs (i : Nat) : nonWs (sizeUnits.getD i 'K') = true := by
  rcases i with _ | _ | _ | _ | _ | n
  · decide
  · decide
  · decide
  · decide
  · decide
  · rw [List.getD_eq_default]
    · decide
    · simp [sizeUnits]

theorem intDigitsFacts (n : Int) : intDigits n ≠ [] ∧ (intDigits n).all nonWs = true := by
  by_cases h : n < 0
  · simp only [intDigits, if_pos h]
    refine ⟨by simp, ?_⟩
    simp only [List.all_cons, Bool.and_eq_true]
    exact ⟨by decide, allDigitsNonWs (natDigitsAllDigit _)⟩
  · simp only [intDigits, if_neg h]
    exact ⟨natDigitsNeNil _, allDigitsNonWs (natDigitsAllDigit _)⟩

theorem formatSizeFacts (n : Int) : formatSize n ≠ [] ∧ (formatSize n).all nonWs = true := by
  by_cases h : n < 1000
  · simp only [formatSize, if_pos h]
    exact intDigitsFacts n
  · simp only [formatSize, if_neg h]
    split
    · constructor
      · simp
      · rw [List.all_append, Bool.and_eq_true]
        constructor
        · rw [List.all_append, Bool.and_eq_true]
          refine ⟨allDigitsNonWs (natDigitsAllDigit _), ?_⟩
          rw [List.all_cons, Bool.and_eq_true]
          exact ⟨by decide, allDigitsNonWs (natDigitsAllDigit _)⟩
        · rw [List.all_cons, Bool.and_eq_true]
          exact ⟨unitNonWs _, rfl⟩
    · constructor
      · simp
      · rw [List.all_append, Bool.and_eq_true]
        refine ⟨allDigitsNonWs (natDigitsAllDigit _), ?_⟩
        rw [List.all_cons, Bool.and_eq_true]
        exact ⟨unitNonWs _, rfl⟩

theorem digitTokFacts (k : Nat) :
    padLeft (natDigits k) 2 '0' ≠ [] ∧ (padLeft (natDigits k) 2 '0').all Char.isDigit = true :=
  ⟨padLeftNeNil (natDigitsNeNil k), padLeftAll (natDigitsAllDigit k) (by decide)⟩

theorem modePatHead {c : Char} {cs : JStr} (h : modePat (c :: cs) = true) :
    c = '-' ∨ c = 'd' := by
  simp only [modePat, Bool.and_eq_true, Bool.or_eq_true, decide_eq_true_eq] at h
  exact h.1.1

theorem mode10EvalCons (star : Bool) (c : Char) (cs rest : JStr) (hm : modePat (c :: cs) = true) :
    mode10 star (c :: (cs ++ rest)) = some (star, c :: cs, rest) := by
  have h := mode10Eval star (c :: cs) rest hm
  simpa using h

theorem headFailsNonWsOfSpaces {sp rest : JStr} (hsp : sp.all (fun c => c = ' ') = true)
    (hrest : headFails nonWs rest) : headFails nonWs (sp ++ rest) := by
  cases sp with
  | nil => simpa using hrest
  | cons a as =>
    intro d hd
    simp only [List.cons_append, List.head?_cons, Option.some.injEq] at hd
    subst hd
    simp only [List.all_cons, Bool.and_eq_true, decide_eq_true_eq] at hsp
    rw [hsp.1]
    decide

/-- The strict pattern succeeds on every well-formed encoded line and captures
exactly the encoded fields; in particular the captured name is the encoded
filename. -/
theorem strictMatchLine (r : FileItem) (c : Char) (cs : JStr)
    (hmode : r.modeStr = some (c :: cs))
    (hpat : modePat (c :: cs) = true)
    (hu : ∀ s, r.username = some s → s.all nonWs = true)
    (hg : ∀ s, r.groupname = some s → s.all nonWs = true)
    (hmonth1 : (monthChars r.month).takeWhile nonWs ≠ [])
    (hmonth2 : ((monthChars r.month).dropWhile nonWs).all (fun c => c = ' ') = true)
    (hn1 : r.filename ≠ [])
    (hn2 : headFails isWs r.filename)
    (hn3 : r.filename.all (fun c => !(c = '\n' || c = '\r')) = true) :
    strictMatch r.line = some
      { star := r.selected, mode := c :: cs,
        owner := ownerTok r.username, group := ownerTok r.groupname,
        sizeTok := formatSize r.size,
        monthTok := (monthChars r.month).takeWhile nonWs,
        dayTok := padLeft (natDigits r.day) 2 '0',
        hourTok := padLeft (natDigits r.hour) 2 '0',
        minTok := padLeft (natDigits r.min) 2 '0',
        name := r.filename } := by
  have hc := modePatHead hpat
  have hun := ownerTokFacts r.username hu
  have hgn := ownerTokFacts r.groupname hg
  have hsz := formatSizeFacts r.size
  have hday := digitTokFacts r.day
  have hhour := digitTokFacts r.hour
  have hmin := digitTokFacts r.min
  have hmtokAll : ((monthChars r.month).takeWhile nonWs).all nonWs = true :=
    takeWhileAllSelf nonWs (monthChars r.month)
  -- abbreviations
  set u := ownerTok r.username with hu_def
  set g := ownerTok r.groupname with hg_def
  set sz := formatSize r.size with hsz_def
  set mtok := (monthChars r.month).takeWhile nonWs with hmtok_def
  set msp := (monthChars r.month).dropWhile nonWs with hmsp_def
  set d2 := padLeft (natDigits r.day) 2 '0' with hd2_def
  set h2t := padLeft (natDigits r.hour) 2 '0' with hh2_def
  set m2t := padLeft (natDigits r.min) 2 '0' with hm2_def
  have hmf : monthChars r.month = mtok ++ msp := by
    rw [hmtok_def, hmsp_def]
    exact (List.takeWhile_append_dropWhile _ _).symm
  -- the suffixes consumed at each step
  set T7 : JStr := ' ' :: r.filename with hT7
  set T6 : JStr := ':' :: (m2t ++ T7) with hT6
  set T5 : JStr := ' ' :: (h2t ++ T6) with hT5
  set T4 : JStr := ' ' :: (d2 ++ T5) with hT4
  set T3 : JStr := ' ' :: ((mtok ++ msp) ++ T4) with hT3
  set T2 : JStr := ' ' :: (padLeft sz 8 ' ' ++ T3) with hT2
  set T1 : JStr := ' ' :: (g ++ T2) with hT1
  -- the line in head-normal form
  have hline : r.line = (if r.selected then '*' else ' ') :: ' ' ::
      c :: (cs ++ (r.lineAfterMode ++ r.filename)) := by
    simp [FileItem.line, FileItem.lineFront, modeRender, hmode, List.append_assoc]
  have hrest : r.lineAfterMode ++ r.filename = ' ' :: (u ++ T1) := by
    simp only [FileItem.lineAfterMode, hT1, hT2, hT3, hT4, hT5, hT6, hT7,
      hu_def, hg_def, hsz_def, hd2_def, hh2_def, hm2_def]
    rw [← hmf]
    simp [List.append_assoc]
  have st1 : wsTok (r.lineAfterMode ++ r.filename) = some (u, T1) := by
    refine wsTokEval _ [' '] u T1 ?_ (by simp) (by decide) hun.1 hun.2 ?_
    · rw [hrest]; rfl
    · intro d hd; rw [hT1] at hd; simp only [List.head?_cons, Option.some.injEq] at hd
      subst hd; decide
  have st2 : wsTok T1 = some (g, T2) := by
    refine wsTokEval _ [' '] g T2 ?_ (by simp) (by decide) hgn.1 hgn.2 ?_
    · rw [hT1]; rfl
    · intro d hd; rw [hT2] at hd; simp only [List.head?_cons, Option.some.injEq] at hd
      subst hd; decide
  have st3 : wsTok T2 = some (sz, T3) := by
    refine wsTokEval _ (' ' :: List.replicate (8 - sz.length) ' ') sz T3 ?_ (by simp) ?_
      hsz.1 hsz.2 ?_
    · rw [hT2]; simp [padLeft, List.append_assoc]
    · simp only [List.all_cons, Bool.and_eq_true]
      exact ⟨by decide, allReplicate _ (by decide)⟩
    · intro d hd; rw [hT3] at hd; simp only [List.head?_cons, Option.some.injEq] at hd
      subst hd; decide
  have st4 : wsTok T3 = some (mtok, msp ++ T4) := by
    refine wsTokEval _ [' '] mtok (msp ++ T4) ?_ (by simp) (by decide) hmonth1 hmtokAll ?_
    · rw [hT3]; simp [List.append_assoc]
    · refine headFailsNonWsOfSpaces hmonth2 ?_
      intro d hd; rw [hT4] at hd; simp only [List.head?_cons, Option.some.injEq] at hd
      subst hd; decide
  have st5 : wsDigits (msp ++ T4) = some (d2, T5) := by
    refine wsDigitsEval _ (msp ++ [' ']) d2 T5 ?_ (by simp) ?_ hday.1 hday.2 ?_
    · rw [hT4]; simp [List.append_assoc]
    · simp only [List.all_append, Bool.and_eq_true]
      exact ⟨spacesAllWs hmonth2, by decide⟩
    · intro d hd; rw [hT5] at hd; simp only [List.head?_cons, Option.some.injEq] at hd
      subst hd; decide
  have st6 : wsDigits T5 = some (h2t, T6) := by
    refine wsDigitsEval _ [' '] h2t T6 ?_ (by simp) (by decide) hhour.1 hhour.2 ?_
    · rw [hT5]; rfl
    · intro d hd; rw [hT6] at hd; simp only [List.head?_cons, Option.some.injEq] at hd
      subst hd; decide
  have st7 : colonDigits T6 = some (m2t, T7) := by
    rw [hT6, ← List.cons_append]
    refine colonDigitsEval m2t T7 hmin.1 hmin.2 ?_
    intro d hd; rw [hT7] at hd; simp only [List.head?_cons, Option.some.injEq] at hd
    subst hd; decide
  have st8 : tailName T7 = some r.filename := by
    rw [hT7]
    exact tailNameEval r.filename hn1 hn2 hn3
  rw [hline]
  simp only [strictMatch, headStepEval r.selected c cs (r.lineAfterMode ++ r.filename) hc,
    mode10EvalCons r.selected c cs (r.lineAfterMode ++ r.filename) hpat,
    Option.some_bind, st1, st2, st3, st4, st5, st6, st7, st8, Option.map_some']

/-! ## Claim C1: encode/decode round trip -/

/-- C1 (amended): for every row `r` satisfying `rowOk` — mode token matching
`[\-d][rwx\-]{9}`, whitespace-free owner/group, a regular month field, and a
nonempty filename that does not start with whitespace and has no line break —
decoding the encoded line recovers the name exactly, and the decoder's
`filenameColumn` equals the `startColumn` the encoder records (the length of
the fixed-width prefix).  The unrestricted claim is refuted by
`c1_roundtrip_cex`. -/
theorem c1_roundtrip (dir : JStr) (r : FileItem) (h : rowOk r = true) :
    (parseLine dir r.line).filename = r.filename ∧
    (parseLine dir r.line).startColumn = some r.lineStartCol := by
  simp only [rowOk, Bool.and_eq_true] at h
  obtain ⟨⟨⟨⟨⟨⟨h1, h2⟩, h3⟩, h4⟩, h5⟩, h6⟩, h7⟩ := h
  -- the mode token
  obtain ⟨m, hmode, hpat⟩ : ∃ m, r.modeStr = some m ∧ modePat m = true := by
    cases hms : r.modeStr with
    | none => rw [hms] at h1; exact absurd h1 (by simp)
    | some m => rw [hms] at h1; exact ⟨m, rfl, h1⟩
  obtain ⟨c, cs, rfl⟩ : ∃ c cs, m = c :: cs := by
    cases m with
    | nil => exact absurd hpat (by simp [modePat])
    | cons c cs => exact ⟨c, cs, rfl⟩
  -- owner/group hypotheses
  have hu : ∀ s, r.username = some s → s.all nonWs = true := by
    intro s hs; rw [hs] at h2; exact h2
  have hg : ∀ s, r.groupname = some s → s.all nonWs = true := by
    intro s hs; rw [hs] at h3; exact h3
  -- month field
  have hm1 : (monthChars r.month).takeWhile nonWs ≠ [] := by
    simpa using h4
  -- filename
  obtain ⟨hn1, hn2⟩ : r.filename ≠ [] ∧ headFails isWs r.filename := by
    cases hf : r.filename with
    | nil => rw [hf] at h6; exact absurd h6 (by simp)
    | cons a as =>
      rw [hf] at h6
      refine ⟨by simp, ?_⟩
      intro d hd
      simp only [List.head?_cons, Option.some.injEq] at hd
      subst hd
      simpa [nonWs] using h6
  have hsm := strictMatchLine r c cs hmode hpat hu hg hm1 h5 hn1 hn2 h7
  constructor
  · simp [parseLine, hsm]
  · have hlen : r.line.length - r.filename.length = r.lineFront.length := by
      simp [FileItem.line, List.length_append]
    simp [parseLine, hsm, FileItem.lineStartCol, hlen]

/-- C1 counterexample: `rowBad` has a nonempty name with no line breaks, yet
its encoded line does not decode back to the same name, and the recovered
column is absent rather than the encoder's start column — the mode token
`-rwsr-xr-x` forces the fallback path. -/
theorem c1_roundtrip_cex :
    rowBad.filename ≠ [] ∧
    rowBad.filename.all (fun c => !(c = '\n' || c = '\r')) = true ∧
    (parseLine rowBad.dirname rowBad.line).filename ≠ rowBad.filename ∧
    (parseLine rowBad.dirname rowBad.line).startColumn ≠ some rowBad.lineStartCol := by
  decide

/-- Witness for `c1_roundtrip` at the concrete row `rowA`. -/
theorem c1_roundtrip_witness :
    rowOk rowA = true ∧
    ((parseLine rowA.dirname rowA.line).filename = rowA.filename ∧
     (parseLine rowA.dirname rowA.line).startColumn = some rowA.lineStartCol) :=
  ⟨by decide, c1_roundtrip rowA.dirname rowA (by decide)⟩

/-! ## Claim C10: modes outside the strict class fall back -/

/-- C10: the strict pattern only accepts a 10-character mode whose tail is
drawn from {r,w,x,-}; a row whose encoded mode token has the right length
and first character but any other tail character (setuid `s`, sticky `t`,
...) silently decodes through the fallback path: file flags, absent
owner/group, zeroed size and timestamp, no start column — so such encoded
rows do not round-trip. -/
theorem c10_fallback (dir : JStr) (r : FileItem) (c : Char) (cs : JStr)
    (hmode : r.modeStr = some (c :: cs))
    (hc : c = '-' ∨ c = 'd')
    (hlen : cs.length = 9)
    (hbad : cs.all permChar = false) :
    strictMatch r.line = none ∧
    parseLine dir r.line = fallbackItem dir r.line ∧
    (parseLine dir r.line).isFile = true ∧
    (parseLine dir r.line).isDirectory = false ∧
    (parseLine dir r.line).username = none ∧
    (parseLine dir r.line).groupname = none ∧
    (parseLine dir r.line).size = 0 ∧
    (parseLine dir r.line).day = 0 ∧
    (parseLine dir r.line).hour = 0 ∧
    (parseLine dir r.line).min = 0 ∧
    (parseLine dir r.line).startColumn = none ∧
    (parseLine dir r.line).modeStr ≠ r.modeStr := by
  have hpat : modePat (c :: cs) = false := by
    simp [modePat, hbad]
  have hline : r.line = (if r.selected then '*' else ' ') :: ' ' ::
      c :: (cs ++ (r.lineAfterMode ++ r.filename)) := by
    simp [FileItem.line, FileItem.lineFront, modeRender, hmode, List.append_assoc]
  have hm10 : mode10 r.selected (c :: (cs ++ (r.lineAfterMode ++ r.filename))) = none := by
    have htake : (c :: (cs ++ (r.lineAfterMode ++ r.filename))).take 10 = c :: cs := by
      rw [← List.cons_append]
      have : (c :: cs).length = 10 := by simp [hlen]
      rw [← this]
      exact List.take_left _ _
    simp [mode10, htake, hpat]
  have hsm : strictMatch r.line = none := by
    rw [hline]
    simp only [strictMatch, headStepEval r.selected c cs _ hc, hm10, Option.none_bind]
  refine ⟨hsm, ?_, ?_, ?_, ?_, ?_, ?_, ?_, ?_, ?_, ?_, ?_⟩
  all_goals simp [parseLine, hsm, fallbackItem, hmode]

/-- Witness for `c10_fallback` at the concrete row `rowBad`. -/
theorem c10_fallback_witness :
    rowBad.modeStr = some ('-' :: "rwsr-xr-x".toList) ∧
    (strictMatch rowBad.line = none ∧
     parseLine "/d".toList rowBad.line = fallbackItem "/d".toList rowBad.line ∧
     (parseLine "/d".toList rowBad.line).isFile = true ∧
     (parseLine "/d".toList rowBad.line).isDirectory = false ∧
     (parseLine "/d".toList rowBad.line).username = none ∧
     (parseLine "/d".toList rowBad.line).groupname = none ∧
     (parseLine "/d".toList rowBad.line).size = 0 ∧
     (parseLine "/d".toList rowBad.line).day = 0 ∧
     (parseLine "/d".toList rowBad.line).hour = 0 ∧
     (parseLine "/d".toList rowBad.line).min = 0 ∧
     (parseLine "/d".toList rowBad.line).startColumn = none ∧
     (parseLine "/d".toList rowBad.line).modeStr ≠ rowBad.modeStr) :=
  ⟨by decide,
   c10_fallback "/d".toList rowBad '-' "rwsr-xr-x".toList (by decide) (Or.inl rfl)
     (by decide) (by decide)⟩


/-! ## Claim C3: the decoder is total -/

/-- C3: for every directory and every line — empty, whitespace-free, or
arbitrary garbage — `parseLine` returns a row: it carries the given
directory, and whenever the strict pattern fails it is exactly the fallback
row (best-effort name, file flags, zeroed/absent metadata). -/
theorem c3_parseLine_total :
    (∀ dir l, (parseLine dir l).dirname = dir) ∧
    (∀ dir l, strictMatch l = none → parseLine dir l =
      { dirname := dir, filename := fallbackName l, isDirectory := false, isFile := true,
        username := none, groupname := none, size := 0, month := Sum.inr 0,
        day := 0, hour := 0, min := 0, modeStr := some [], selected := false,
        startColumn := none }) ∧
    (parseLine "/d".toList [] = fallbackItem "/d".toList [] ∧
      (parseLine "/d".toList []).filename = []) ∧
    (parseLine "/d".toList "garbage".toList).filename = "garbage".toList := by
  refine ⟨?_, ?_, by decide, by decide⟩
  · intro dir l
    cases h : strictMatch l <;> simp [parseLine, h, fallbackItem]
  · intro dir l h
    simp [parseLine, h, fallbackItem]

/-- Witness for `c3_parseLine_total` on a whitespace-free garbage line. -/
theorem c3_parseLine_total_witness :
    strictMatch "junk".toList = none ∧
    parseLine "/x".toList "junk".toList =
      { dirname := "/x".toList, filename := fallbackName "junk".toList,
        isDirectory := false, isFile := true, username := none, groupname := none,
        size := 0, month := Sum.inr 0, day := 0, hour := 0, min := 0,
        modeStr := some [], selected := false, startColumn := none } :=
  ⟨by decide, c3_parseLine_total.2.1 "/x".toList "junk".toList (by decide)⟩

/-! ## Claim C4: the fallback name heuristic -/

theorem jsLastIndexOfNone {l : JStr} {c : Char} (h : c ∉ l) : jsLastIndexOf l c = none := by
  induction l with
  | nil => rfl
  | cons a as ih =>
    simp only [List.mem_cons, not_or] at h
    simp only [jsLastIndexOf, ih h.2]
    simp [Ne.symm h.1]

theorem jsLastIndexOfLastColon (a b : JStr) (hb : (':' : Char) ∉ b) :
    jsLastIndexOf (a ++ ':' :: b) ':' = some a.length := by
  induction a with
  | nil => simp [jsLastIndexOf, jsLastIndexOfNone hb]
  | cons x xs ih => simp [jsLastIndexOf, ih]

theorem dropAfterLastColon (a b : JStr) :
    (a ++ ':' :: b).drop (a.length + 1) = b := by
  have h : a ++ ':' :: b = (a ++ [':']) ++ b := by simp
  have hlen : (a ++ [':']).length = a.length + 1 := by simp
  rw [h, ← hlen, List.drop_left]

/-- C4 (amended): when the strict pattern fails, the fallback name is taken
from the last COLON (not the last HH:MM-shaped token): everything after the
last `:` with leading plain spaces skipped, then trimmed; when the line has
no colon at all, the last whitespace-delimited token of the trimmed line
(the whole trimmed line when it has no whitespace).  The claim as written is
refuted by `c4_fallback_name_cex`. -/
theorem c4_fallback_name :
    (∀ dir a b, strictMatch (a ++ ':' :: b) = none → (':' : Char) ∉ b →
       (parseLine dir (a ++ ':' :: b)).filename
         = jsTrim (b.dropWhile (fun c => c = ' '))) ∧
    (∀ dir l, strictMatch l = none → (':' : Char) ∉ l →
       (parseLine dir l).filename = ((jsTrim l).reverse.takeWhile nonWs).reverse) := by
  constructor
  · intro dir a b hsm hb
    simp only [parseLine, hsm, fallbackItem, fallbackName,
      jsLastIndexOfLastColon a b hb, dropAfterLastColon a b]
  · intro dir l hsm hl
    simp only [parseLine, hsm, fallbackItem, fallbackName, jsLastIndexOfNone hl]

/-- C4 counterexample: `"ab:cd ef"` contains no digits (hence no HH:MM-shaped
token), so per the claim its fallback name would be the last
whitespace-delimited token `"ef"`; the code yields `"cd ef"` (everything
after the last colon).  And on `"x 12:34 name"`, where an HH:MM token is
present, the code yields `"34 name"` — not the text after the token. -/
theorem c4_fallback_name_cex :
    strictMatch "ab:cd ef".toList = none ∧
    "ab:cd ef".toList.all (fun c => !c.isDigit) = true ∧
    (parseLine "/d".toList "ab:cd ef".toList).filename = "cd ef".toList ∧
    ((jsTrim "ab:cd ef".toList).reverse.takeWhile nonWs).reverse = "ef".toList ∧
    (parseLine "/d".toList "ab:cd ef".toList).filename ≠ "ef".toList ∧
    strictMatch "x 12:34 name".toList = none ∧
    (parseLine "/d".toList "x 12:34 name".toList).filename = "34 name".toList ∧
    (parseLine "/d".toList "x 12:34 name".toList).filename ≠ "name".toList := by
  decide

/-- Witness for `c4_fallback_name` on both branches. -/
theorem c4_fallback_name_witness :
    ((parseLine "/d".toList ("ab".toList ++ ':' :: "cd ef".toList)).filename
       = jsTrim ("cd ef".toList.dropWhile (fun c => c = ' '))) ∧
    ((parseLine "/d".toList "hello world".toList).filename
       = ((jsTrim "hello world".toList).reverse.takeWhile nonWs).reverse) :=
  ⟨c4_fallback_name.1 "/d".toList "ab".toList "cd ef".toList (by decide) (by decide),
   c4_fallback_name.2 "/d".toList "hello world".toList (by decide) (by decide)⟩

/-! ## Claim C7: the size formatter and its inverse -/

theorem roundHalfUpFloor (a : Int) (b : Nat) (hb : 0 < b) :
    roundHalfUp a b = roundJS ((a : ℚ) / (b : ℚ)) := by
  have hbq : ((b : ℚ)) ≠ 0 := by exact_mod_cast hb.ne'
  have key : (a : ℚ) / (b : ℚ) + 1 / 2 = ((2 * a + b : Int) : ℚ) / (((2 * b : Nat) : ℚ)) := by
    push_cast
    field_simp
    ring
  rw [roundJS, key, Rat.floor_intCast_div_natCast]
  simp only [roundHalfUp]
  try push_cast
  try ring

/-- C7: the formatter satisfies the spec's literal cases, and the inverse
`parseSizeString` multiplies a K/M/G/T/P-suffixed number (case-insensitive)
by the matching power of 1000 rounded to the nearest integer, parses an
unsuffixed token with `parseInt`, and returns 0 for unparseable input (on
either branch). -/
theorem c7_size_codec :
    (formatSize 532 = "532".toList ∧ formatSize 5500 = "5.5K".toList ∧
     formatSize 1234567 = "1.2M".toList ∧ formatSize 999 = "999".toList ∧
     formatSize 1000 = "1K".toList) ∧
    (∀ s f u mul, jsParseFloat s = some f → unitMul (charUpper u) = some mul →
       jsTrim (s ++ [u]) = s ++ [u] →
       parseSizeString (s ++ [u]) = roundJS (f.val * (mul : ℚ))) ∧
    (∀ s u mul, jsParseFloat s = none → unitMul (charUpper u) = some mul →
       jsTrim (s ++ [u]) = s ++ [u] →
       parseSizeString (s ++ [u]) = 0) ∧
    (∀ s, jsTrim s = s → (∀ c, s.getLast? = some c → unitMul (charUpper c) = none) →
       parseSizeString s = (jsParseInt s).getD 0) := by
  refine ⟨by decide, ?_, ?_, ?_⟩
  · intro s f u mul h1 h2 h3
    have hne : s ++ [u] ≠ [] := by simp
    simp only [parseSizeString, if_neg hne, h3, List.getLast?_concat, List.dropLast_concat,
      h1, h2]
    rw [roundHalfUpFloor _ _ (pow_pos (by norm_num) f.den10)]
    congr 1
    simp only [DecFloat.val]
    push_cast
    ring
  · intro s u mul h1 h2 h3
    have hne : s ++ [u] ≠ [] := by simp
    simp only [parseSizeString, if_neg hne, h3, List.getLast?_concat, List.dropLast_concat,
      h1, h2]
  · intro s h1 h2
    by_cases hs : s = []
    · subst hs
      decide
    · simp only [parseSizeString, if_neg hs, h1]
      cases hlast : s.getLast? with
      | none => exact absurd (List.getLast?_eq_none_iff.mp hlast) hs
      | some c =>
        simp only [h2 c hlast]
        cases hpi : jsParseInt s <;> simp [hpi]

/-- Witness for `c7_size_codec` on `"5.5K"`, the NaN-suffixed case `"xM"`,
and the unsuffixed case `"532"`. -/
theorem c7_size_codec_witness :
    (parseSizeString ("5.5".toList ++ ['K'])
       = roundJS ((DecFloat.val { num := 55, den10 := 1 }) * ((1000 : Nat) : ℚ))) ∧
    parseSizeString ("x".toList ++ ['M']) = 0 ∧
    parseSizeString "532".toList = (jsParseInt "532".toList).getD 0 :=
  ⟨c7_size_codec.2.1 "5.5".toList { num := 55, den10 := 1 } 'K' 1000
      (by decide) (by decide) (by decide),
   c7_size_codec.2.2.1 "x".toList 'M' 1000000 (by decide) (by decide) (by decide),
   c7_size_codec.2.2.2 "532".toList (by decide) (by
     intro c hc
     rw [show ("532".toList).getLast? = some '2' by decide] at hc
     injection hc with h
     rw [← h]
     decide)⟩


/-! ## Claims C2 and C9: the reconciler -/

theorem parseLineNilName (dir : JStr) : (parseLine dir []).filename = [] := rfl

theorem filterMapCongrIdx {f g : Nat → Option (JStr × JStr)} :
    ∀ (is : List Nat), (∀ i ∈ is, f i = g i) → is.filterMap f = is.filterMap g := by
  intro is
  induction is with
  | nil => intro _; rfl
  | cons i rest ih =>
    intro h
    simp only [List.filterMap_cons, h i (by simp)]
    rw [ih (fun j hj => h j (by simp [hj]))]

/-- C2 (amended): the `writeFile` diff skips the header line unconditionally
(its content never influences the requests), emits a rename request exactly
for the line indices `i ≥ 1` where both decoded names are nonempty and
differ — with `from`/`to` the joined paths — and emits none when the two
names are equal; in the concrete scenario where only the `b.txt` row is
edited to `c.txt` it requests exactly the single rename `b.txt → c.txt`.
(The claim's parenthetical "from == to is never attempted" is refuted by
`c2_reconcile_cex`: distinct names can join to the same path.) -/
theorem c2_reconcile :
    (∀ dir o o' os n n' ns,
       renameRequests dir (o :: os) (n :: ns) = renameRequests dir (o' :: os) (n' :: ns)) ∧
    (∀ dir oldL newL p, p ∈ renameRequests dir oldL newL ↔
       ∃ i, 1 ≤ i ∧ i < max oldL.length newL.length ∧
         (parseLine dir (oldL.getD i [])).filename ≠ [] ∧
         (parseLine dir (newL.getD i [])).filename ≠ [] ∧
         (parseLine dir (oldL.getD i [])).filename ≠ (parseLine dir (newL.getD i [])).filename ∧
         p = (pathJoin dir ((parseLine dir (oldL.getD i [])).filename),
              pathJoin dir ((parseLine dir (newL.getD i [])).filename))) ∧
    renameRequests "/d".toList ["/d:".toList, rowA.line, rowB.line]
        ["/d:".toList, rowA.line, rowC.line]
      = [(pathJoin "/d".toList "b.txt".toList, pathJoin "/d".toList "c.txt".toList)] := by
  refine ⟨?_, ?_, by decide⟩
  · intro dir o o' os n n' ns
    simp only [renameRequests, List.length_cons]
    refine filterMapCongrIdx _ ?_
    intro i _
    cases i with
    | zero => simp [rowRename]
    | succ j => simp [rowRename, List.getD_cons_succ]
  · intro dir oldL newL p
    simp only [renameRequests, List.mem_filterMap, List.mem_range]
    constructor
    · rintro ⟨i, hi, hrow⟩
      by_cases h0 : i = 0
      · rw [h0] at hrow
        simp [rowRename] at hrow
      · have h1 : 1 ≤ i := Nat.one_le_iff_ne_zero.mpr h0
        refine ⟨i, h1, hi, ?_⟩
        simp only [rowRename, if_neg h0] at hrow
        split_ifs at hrow with hmt hcond
        obtain ⟨hc1, hc2, hc3⟩ := hcond
        refine ⟨hc1, hc2, hc3, ?_⟩
        simpa using hrow.symm
    · rintro ⟨i, h1, hi, hc1, hc2, hc3, hp⟩
      refine ⟨i, hi, ?_⟩
      have h0 : ¬(i = 0) := by omega
      simp only [rowRename, if_neg h0]
      have hne : ¬(oldL.getD i [] = [] ∧ newL.getD i [] = []) := by
        rintro ⟨ho, _⟩
        rw [ho] at hc1
        exact hc1 (parseLineNilName dir)
      rw [if_neg hne, if_pos ⟨hc1, hc2, hc3⟩, hp]

/-- C2 counterexample: the rows named `c` and `./c` decode to distinct names,
so a rename is requested — but both join to `/d/c`, and the loop attempts a
rename whose source and destination coincide. -/
theorem c2_reconcile_cex :
    (parseLine "/d".toList rowPlainC.line).filename ≠ (parseLine "/d".toList rowDotC.line).filename ∧
    renameRequests "/d".toList ["/d:".toList, rowPlainC.line] ["/d:".toList, rowDotC.line]
      = [("/d/c".toList, "/d/c".toList)] ∧
    (writeFileRenames (fun (s : Unit) _ _ => (true, s)) "/d".toList
        ["/d:".toList, rowPlainC.line] ["/d:".toList, rowDotC.line] ()).1
      = [{ src := "/d/c".toList, dst := "/d/c".toList, ok := true }] := by
  decide

theorem writeFileRenamesAux {σ : Type} (ren : σ → JStr → JStr → Bool × σ)
    (dir : JStr) (oldLines newLines : List JStr) :
    ∀ (is : List Nat) (acc : List RenAttempt) (s : σ),
      ((is.foldl (fun acc i =>
          match rowRename dir oldLines newLines i with
          | none => acc
          | some (f, t) =>
            let r := ren acc.2 f t
            (acc.1 ++ [{ src := f, dst := t, ok := r.1 }], r.2)) (acc, s)).1).map
          (fun a => (a.src, a.dst))
        = acc.map (fun a => (a.src, a.dst)) ++ is.filterMap (rowRename dir oldLines newLines) := by
  intro is
  induction is with
  | nil =>
    intro acc s
    simp
  | cons i rest ih =>
    intro acc s
    simp only [List.foldl_cons, List.filterMap_cons]
    cases h : rowRename dir oldLines newLines i with
    | none =>
      simp only [h]
      rw [ih]
    | some p =>
      obtain ⟨f, t⟩ := p
      simp only [h]
      rw [ih]
      simp [List.append_assoc]

/-- C9: the rename attempts of the `writeFile` loop, executed in line order,
are exactly the derived rename requests — for every rename implementation
and starting filesystem state.  An individual failure only shows up in the
recorded outcome; it never prevents a later differing line pair from being
attempted. -/
theorem c9_partial_failure {σ : Type} (ren : σ → JStr → JStr → Bool × σ) (dir : JStr)
    (oldLines newLines : List JStr) (s0 : σ) :
    (writeFileRenames ren dir oldLines newLines s0).1.map (fun a => (a.src, a.dst))
      = renameRequests dir oldLines newLines := by
  unfold writeFileRenames renameRequests
  rw [writeFileRenamesAux]
  simp


/-! ## Claims C5, C6, C8: the listing cache -/

/-- On a validated cache hit, `createBuffer` renders the cached entries,
leaves the cache untouched, and its filesystem trace is exactly: a stat of
the directory, a readdir of the directory and the mtime-checking stat — no
per-member operation. -/
theorem createBufferHit (cfg : Cfg) (fs : FS) (cache : Cache) (d : JStr)
    (st : Stats) (es : List JStr) (ce : CacheEntry)
    (h1 : fs.stat d = some st) (h2 : st.isDir = true) (h3 : fs.readdir d = some es)
    (h4 : mapGet cache d = some ce) (h5 : ce.entries ≠ [])
    (h6 : ce.dirMtime = some st.mtimeMs) :
    createBuffer cfg fs cache d =
      { buffers := (d ++ [':']) :: ce.entries.map (fun e => (e.toItem d).line)
          ++ (if cfg.maxEntries < ce.entries.length then [truncMsg cfg.maxEntries] else []),
        cache := cache,
        trace := [FsOp.statOp d, FsOp.readdirOp d, FsOp.statOp d] } := by
  simp only [createBuffer, h1, h2, h3, h4]
  simp [h5, h6]

/-- On a cache miss (with the directory present and readable), `createBuffer`
takes the rebuild path. -/
theorem createBufferMiss (cfg : Cfg) (fs : FS) (cache : Cache) (d : JStr)
    (st : Stats) (es : List JStr)
    (h1 : fs.stat d = some st) (h2 : st.isDir = true) (h3 : fs.readdir d = some es)
    (h4 : mapGet cache d = none) :
    createBuffer cfg fs cache d
      = buildFrom cfg fs cache d es [FsOp.statOp d, FsOp.readdirOp d] := by
  simp only [createBuffer, h1, h2, h3, h4]
  simp

/-- C5 (amended): with a nonempty cache entry whose recorded mtime equals the
directory's current mtime, `createBuffer` returns the cached snapshot
unchanged, leaves the cache untouched and performs no per-member stat or
readdir fan-out; its only filesystem operations are two stats of the
directory itself and one readdir of the directory (the claim's stronger
"only the mtime check" is refuted by `c5_cache_hit_cex`). -/
theorem c5_cache_hit (cfg : Cfg) (fs : FS) (cache : Cache) (d : JStr)
    (st : Stats) (es : List JStr) (ce : CacheEntry)
    (h1 : fs.stat d = some st) (h2 : st.isDir = true) (h3 : fs.readdir d = some es)
    (h4 : mapGet cache d = some ce) (h5 : ce.entries ≠ [])
    (h6 : ce.dirMtime = some st.mtimeMs) :
    (createBuffer cfg fs cache d).buffers
      = (d ++ [':']) :: ce.entries.map (fun e => (e.toItem d).line)
        ++ (if cfg.maxEntries < ce.entries.length then [truncMsg cfg.maxEntries] else []) ∧
    (createBuffer cfg fs cache d).cache = cache ∧
    (createBuffer cfg fs cache d).trace = [FsOp.statOp d, FsOp.readdirOp d, FsOp.statOp d] := by
  rw [createBufferHit cfg fs cache d st es ce h1 h2 h3 h4 h5 h6]
  exact ⟨rfl, rfl, rfl⟩

/-- C5 counterexample: a validated cache hit (cache unchanged, cached render
returned) whose trace nevertheless contains a readdir of the directory and is
not just the single mtime-checking stat. -/
theorem c5_cache_hit_cex :
    (createBuffer cfgT fsT cacheT "/t".toList).cache = cacheT ∧
    (createBuffer cfgT fsT cacheT "/t".toList).buffers
      = ("/t".toList ++ [':']) :: [(((mkLight ['.'] statsDir)).toItem "/t".toList).line] ∧
    FsOp.readdirOp "/t".toList ∈ (createBuffer cfgT fsT cacheT "/t".toList).trace ∧
    (createBuffer cfgT fsT cacheT "/t".toList).trace ≠ [FsOp.statOp "/t".toList] := by
  decide

/-- Witness for `c5_cache_hit` on the concrete filesystem `fsT`. -/
theorem c5_cache_hit_witness :
    (createBuffer cfgT fsT cacheT "/t".toList).buffers
      = ("/t".toList ++ [':']) :: ceT.entries.map (fun e => (e.toItem "/t".toList).line)
        ++ (if cfgT.maxEntries < ceT.entries.length then [truncMsg cfgT.maxEntries] else []) ∧
    (createBuffer cfgT fsT cacheT "/t".toList).cache = cacheT ∧
    (createBuffer cfgT fsT cacheT "/t".toList).trace
      = [FsOp.statOp "/t".toList, FsOp.readdirOp "/t".toList, FsOp.statOp "/t".toList] :=
  c5_cache_hit cfgT fsT cacheT "/t".toList statsDir ["a".toList] ceT
    (by decide) (by decide) (by decide) (by decide) (by decide) (by decide)

theorem evictAuxId : ∀ (fuel : Nat) (l : Cache), l.length ≤ 10 → evictAux fuel l = l := by
  intro fuel l h
  cases fuel with
  | zero => rfl
  | succ f => simp [evictAux, Nat.not_lt.mpr h]

theorem evictAuxBound : ∀ (fuel : Nat) (l : Cache), l.length ≤ 10 + fuel →
    (evictAux fuel l).length ≤ 10 := by
  intro fuel
  induction fuel with
  | zero => intro l h; simpa [evictAux] using h
  | succ f ih =>
    intro l h
    by_cases h10 : 10 < l.length
    · simp only [evictAux, if_pos h10]
      exact ih l.tail (by simp [List.length_tail]; omega)
    · simp only [evictAux, if_neg h10]
      omega

/-- The eviction loop always leaves at most ten entries. -/
theorem evictLoopLe (l : Cache) : (evictLoop l).length ≤ 10 := by
  by_cases h : l.length ≤ 10
  · rw [evictLoop, evictAuxId _ _ h]
    exact h
  · exact evictAuxBound l.length l (by omega)

theorem evictLoopEleven {l : Cache} (h : l.length = 11) : evictLoop l = l.tail := by
  rw [evictLoop, h]
  show (if 10 < l.length then evictAux 10 l.tail else l) = l.tail
  rw [if_pos (by omega)]
  exact evictAuxId 10 l.tail (by simp [List.length_tail]; omega)

theorem mapSetApp : ∀ (cache : Cache) (d : JStr) (e : CacheEntry),
    mapGet cache d = none → mapSet cache d e = cache ++ [(d, e)] := by
  intro cache
  induction cache with
  | nil => intro d e _; rfl
  | cons kv rest ih =>
    intro d e h
    obtain ⟨k, v⟩ := kv
    simp only [mapGet] at h
    by_cases hk : k = d
    · rw [if_pos hk] at h
      exact absurd h (by simp)
    · rw [if_neg hk] at h
      simp only [mapSet, if_neg hk, ih d e h, List.cons_append]

/-- C6: the cache never exceeds the (hard-coded) bound of 10 directories;
inserting a fresh directory into a full cache evicts exactly the
oldest-inserted entry and keeps the other ten; and concretely, building
snapshots for eleven distinct directories from an empty cache retains
exactly the last ten, in insertion order. -/
theorem c6_cache_eviction :
    (∀ cfg fs cache d, cache.length ≤ 10 → (createBuffer cfg fs cache d).cache.length ≤ 10) ∧
    (∀ cfg fs cache d st es, fs.stat d = some st → st.isDir = true →
       fs.readdir d = some es → mapGet cache d = none → cache.length = 10 →
       (createBuffer cfg fs cache d).cache.map Prod.fst = (cache.map Prod.fst).tail ++ [d] ∧
       (createBuffer cfg fs cache d).cache.length = 10) ∧
    (dirs11.foldl (fun c d => (createBuffer cfg11 fs11 c d).cache) []).map Prod.fst
      = dirs11.tail := by
  refine ⟨?_, ?_, by decide⟩
  · intro cfg fs cache d h
    unfold createBuffer
    repeat' split
    all_goals first
      | exact h
      | exact evictLoopLe _
  · intro cfg fs cache d st es h1 h2 h3 h4 h5
    rw [createBufferMiss cfg fs cache d st es h1 h2 h3 h4]
    have hset := mapSetApp cache d
      { entries := ((filteredNames cfg es).take cfg.maxEntries).filterMap
          (fun nm => (fs.stat (pathJoin d nm)).map (mkLight nm)),
        dirMtime := (fs.stat d).map (fun x => x.mtimeMs) } h4
    obtain ⟨kv, rest, rfl⟩ : ∃ kv rest, cache = kv :: rest := by
      cases cache with
      | nil => simp at h5
      | cons kv rest => exact ⟨kv, rest, rfl⟩
    constructor
    · simp only [buildFrom, hset]
      rw [evictLoopEleven (by simp_all)]
      simp
    · simp only [buildFrom, hset]
      rw [evictLoopEleven (by simp_all)]
      simp_all

/-- Witness for `c6_cache_eviction` at a full concrete cache. -/
theorem c6_cache_eviction_witness :
    ((createBuffer cfg11 fs11
        (List.foldl (fun c d => (createBuffer cfg11 fs11 c d).cache) []
          ["/a0".toList, "/a1".toList, "/a2".toList, "/a3".toList, "/a4".toList,
           "/a5".toList, "/a6".toList, "/a7".toList, "/a8".toList, "/a9".toList])
        "/a10".toList).cache.map Prod.fst
      = ((List.foldl (fun c d => (createBuffer cfg11 fs11 c d).cache) []
          ["/a0".toList, "/a1".toList, "/a2".toList, "/a3".toList, "/a4".toList,
           "/a5".toList, "/a6".toList, "/a7".toList, "/a8".toList, "/a9".toList]).map
            Prod.fst).tail ++ ["/a10".toList]) ∧
    ((createBuffer cfg11 fs11
        (List.foldl (fun c d => (createBuffer cfg11 fs11 c d).cache) []
          ["/a0".toList, "/a1".toList, "/a2".toList, "/a3".toList, "/a4".toList,
           "/a5".toList, "/a6".toList, "/a7".toList, "/a8".toList, "/a9".toList])
        "/a10".toList).cache.length = 10) :=
  c6_cache_eviction.2.1 cfg11 fs11
    (List.foldl (fun c d => (createBuffer cfg11 fs11 c d).cache) []
      ["/a0".toList, "/a1".toList, "/a2".toList, "/a3".toList, "/a4".toList,
       "/a5".toList, "/a6".toList, "/a7".toList, "/a8".toList, "/a9".toList])
    "/a10".toList statsDir [] (by decide) (by decide) (by decide) (by decide) (by decide)

/-- C8 (amended): a render is always the header `"<directory>:"` followed by
one line per entry in snapshot order; on the fresh-build path the truncation
notice is appended exactly when truncation occurred, but on the cache-hit
path it is appended only when the cached entry count exceeds `maxEntries` —
which never holds for builder-produced entries, so a cache-hit render after
a truncated build omits the notice (see `c8_truncation_cex`). -/
theorem c8_truncation :
    (∀ cfg fs cache d es t,
       (buildFrom cfg fs cache d es t).buffers
         = (d ++ [':'])
           :: (((filteredNames cfg es).take cfg.maxEntries).filterMap
                 (fun nm => (fs.stat (pathJoin d nm)).map (mkLight nm))).map
                (fun e => (e.toItem d).line)
           ++ (if cfg.maxEntries < (filteredNames cfg es).length
               then [truncMsg cfg.maxEntries] else [])) ∧
    (∀ (cfg : Cfg) (fs : FS) (d : JStr) (es : List JStr),
       (((filteredNames cfg es).take cfg.maxEntries).filterMap
          (fun nm => (fs.stat (pathJoin d nm)).map (mkLight nm))).length ≤ cfg.maxEntries) ∧
    (∀ cfg fs cache d st es ce, fs.stat d = some st → st.isDir = true →
       fs.readdir d = some es → mapGet cache d = some ce → ce.entries ≠ [] →
       ce.dirMtime = some st.mtimeMs →
       (createBuffer cfg fs cache d).buffers
         = (d ++ [':']) :: ce.entries.map (fun e => (e.toItem d).line)
           ++ (if cfg.maxEntries < ce.entries.length then [truncMsg cfg.maxEntries] else [])) := by
  refine ⟨?_, ?_, ?_⟩
  · intro cfg fs cache d es t
    rfl
  · intro cfg fs d es
    calc (((filteredNames cfg es).take cfg.maxEntries).filterMap
            (fun nm => (fs.stat (pathJoin d nm)).map (mkLight nm))).length
        ≤ ((filteredNames cfg es).take cfg.maxEntries).length := List.length_filterMap_le _ _
      _ ≤ cfg.maxEntries := by simp [List.length_take]
  · intro cfg fs cache d st es ce h1 h2 h3 h4 h5 h6
    rw [createBufferHit cfg fs cache d st es ce h1 h2 h3 h4 h5 h6]

/-- C8 counterexample: with `maxEntries = 2` the listing of `/t` is truncated
and the fresh build ends with the truncation notice, while the immediately
following cache-hit render of the same (still truncated) listing does not. -/
theorem c8_truncation_cex :
    cfgT.maxEntries < (filteredNames cfgT ["a".toList]).length ∧
    (createBuffer cfgT fsT [] "/t".toList).buffers.getLast? = some (truncMsg cfgT.maxEntries) ∧
    (createBuffer cfgT fsT (createBuffer cfgT fsT [] "/t".toList).cache "/t".toList).buffers.getLast?
      ≠ some (truncMsg cfgT.maxEntries) ∧
    (createBuffer cfgT fsT (createBuffer cfgT fsT [] "/t".toList).cache "/t".toList).cache
      = (createBuffer cfgT fsT [] "/t".toList).cache := by
  decide

/-- Witness for `c8_truncation` (the cache-hit clause, at `fsT`). -/
theorem c8_truncation_witness :
    (createBuffer cfgT fsT cacheT "/t".toList).buffers
      = ("/t".toList ++ [':']) :: ceT.entries.map (fun e => (e.toItem "/t".toList).line)
        ++ (if cfgT.maxEntries < ceT.entries.length then [truncMsg cfgT.maxEntries] else []) :=
  c8_truncation.2.2 cfgT fsT cacheT "/t".toList statsDir ["a".toList] ceT
    (by decide) (by decide) (by decide) (by decide) (by decide) (by decide)


end Dired
